import Mathlib

/-!
Shallow embedding of the CRUD server in `src/main.rs` (actix-web service over
an in-memory `Vec<Item>` persisted to `items.json`).

The in-memory state is the `Vec<Item>` behind the `Mutex` in `AppState`;
handlers run under the lock, so each handler is embedded as a pure function
from the current item list (plus its request inputs) to the triple
(HTTP response, new item list, whether `save_items` was invoked).

Rust's `usize` ids are embedded as `Nat` (the JSON layer is exact on the
whole `u64` range, so no modular arithmetic arises in these claims).
-/

/-- The `Item` struct of `main.rs`: `id: usize`, `name: String`. -/
structure Item where
  id : Nat
  name : String
deriving DecidableEq, Repr

/-- Body of an HTTP response as the handlers produce it: `finish()` gives an
empty body, `web::Json(items.clone())` gives the item list as JSON. -/
inductive RespBody where
  | empty
  | itemsJson (items : List Item)
deriving DecidableEq, Repr

/-- An HTTP response: numeric status code plus body. -/
structure HttpResponse where
  status : Nat
  body : RespBody
deriving DecidableEq, Repr

/-- Result of running one handler under the lock: the response, the item
list after the handler, and whether the handler called `save_items`. -/
structure HandlerResult where
  resp : HttpResponse
  items : List Item
  saved : Bool
deriving DecidableEq, Repr

/-- `create_item` (main.rs lines 65-70): pushes the request item onto the
vector unconditionally, saves, and replies `201 Created` with `finish()`
(an empty body). -/
def create_item (item : Item) (items : List Item) : HandlerResult :=
  { resp := { status := 201, body := .empty }
    items := items ++ [item]
    saved := true }

/-- `get_items` (main.rs lines 82-85): replies `200` with a JSON snapshot of
the current vector; no mutation, no save. -/
def get_items (items : List Item) : HandlerResult :=
  { resp := { status := 200, body := .itemsJson items }
    items := items
    saved := false }

/-- The effect of `items.iter_mut().find(|i| i.id == id)` followed by
`existing_item.name = item.name.clone()`: rename the first item whose id
matches, or `none` when no item matches. -/
def updateFirst (id : Nat) (newName : String) : List Item → Option (List Item)
  | [] => none
  | it :: rest =>
    if it.id = id then some ({ it with name := newName } :: rest)
    else (updateFirst id newName rest).map (it :: ·)

/-- `update_item` (main.rs lines 119-129): finds the first item with the path
id, replaces its name with the body's name, saves and replies `200`;
otherwise replies `404` without touching the vector or the file. -/
def update_item (id : Nat) (item : Item) (items : List Item) : HandlerResult :=
  match updateFirst id item.name items with
  | some items' =>
    { resp := { status := 200, body := .empty }, items := items', saved := true }
  | none =>
    { resp := { status := 404, body := .empty }, items := items, saved := false }

/-- `delete_item` (main.rs lines 145-155): if `items.iter().any(|i| i.id == id)`
then `items.retain(|i| i.id != id)` (keep non-matching, in order), save and
reply `200`; otherwise reply `404` without touching the vector or the file. -/
def delete_item (id : Nat) (items : List Item) : HandlerResult :=
  if items.any (fun i => i.id == id) then
    { resp := { status := 200, body := .empty }
      items := items.filter (fun i => i.id != id)
      saved := true }
  else
    { resp := { status := 404, body := .empty }, items := items, saved := false }

/-! ### Reference in-memory model (for the refinement claim)

These definitions follow the spec's words, independently of the handler code:
create appends; update renames the first record with the given id; delete
removes every record with the given id. -/

/-- One replayable mutation at the system boundary. -/
inductive Op where
  | create (item : Item)
  | update (id : Nat) (item : Item)
  | delete (id : Nat)
deriving DecidableEq, Repr

/-- Modelled from the spec: "update(id, newName): scans the Collection in
order for the first Record whose id equals id. If found, replaces its name
with newName"; records after the first match are untouched. -/
def specUpdate (id : Nat) (newName : String) : List Item → List Item
  | [] => []
  | x :: rest =>
    if x.id = id then { x with name := newName } :: rest
    else x :: specUpdate id newName rest

/-- Modelled from the spec: "delete(id): ... removes all Records matching id
(not just the first)", keeping the remaining records in order. -/
def specDelete (id : Nat) : List Item → List Item
  | [] => []
  | x :: rest => if x.id = id then specDelete id rest else x :: specDelete id rest

/-- Modelled from the spec: one step of the reference in-memory model with
first-match update and all-match delete semantics. -/
def specApply (items : List Item) : Op → List Item
  | .create it => items ++ [it]
  | .update id it => specUpdate id it.name items
  | .delete id => specDelete id items

/-- One step through the implemented handlers, projecting the resulting
in-memory collection. -/
def applyHandler (items : List Item) : Op → List Item
  | .create it => (create_item it items).items
  | .update id it => (update_item id it items).items
  | .delete id => (delete_item id items).items

/-! ### Persistence layer: model of serde_json for `Vec<Item>`

`save_items`/`load_items` in `main.rs` delegate the file format to
`serde_json::to_string` / `serde_json::from_str`, code that lives outside
this repository; the string layer below models it faithfully on the
canonical compact format those calls produce. -/

/-- Lowercase hexadecimal digit character, as in serde_json's escape table. -/
def hexDigit (n : Nat) : Char :=
  if n < 10 then Char.ofNat (48 + n) else Char.ofNat (87 + n)

/-- Left brace character (0x7B). -/
def lbrace : Char := Char.ofNat 123

/-- Right brace character (0x7D). -/
def rbrace : Char := Char.ofNat 125

/-- Modelled from the spec: serde_json's escaping of one character inside a
JSON string (the crate's code is outside this repository). Quote and
backslash get a backslash escape, the named control characters get their
short escapes, the remaining control characters become a lowercase
four-hex-digit unicode escape, everything else is emitted verbatim. -/
def escapeChar (c : Char) : List Char :=
  if c = '"' then ['\\', '"']
  else if c = '\\' then ['\\', '\\']
  else if c.toNat = 8 then ['\\', 'b']
  else if c = '\t' then ['\\', 't']
  else if c = '\n' then ['\\', 'n']
  else if c.toNat = 12 then ['\\', 'f']
  else if c = '\r' then ['\\', 'r']
  else if c.toNat < 32 then
    ['\\', 'u', '0', '0', hexDigit (c.toNat / 16), hexDigit (c.toNat % 16)]
  else [c]

/-- JSON string contents for a Rust `String`: each character escaped. -/
def escapeString (s : String) : List Char :=
  (s.data.map escapeChar).flatten

/-- Decimal digits of `n`, most significant first (serde_json integer
serialization: no sign, no leading zeros, a single digit for zero). -/
def natToChars (n : Nat) : List Char :=
  if n < 10 then [Char.ofNat (48 + n)]
  else natToChars (n / 10) ++ [Char.ofNat (48 + n % 10)]
termination_by n
decreasing_by omega

/-- serde_json serialization of one `Item`: a compact object with the fields
in declaration order, `id` then `name`. -/
def encodeItem (it : Item) : List Char :=
  lbrace :: '"' :: 'i' :: 'd' :: '"' :: ':' :: natToChars it.id
    ++ ',' :: '"' :: 'n' :: 'a' :: 'm' :: 'e' :: '"' :: ':' :: '"'
      :: escapeString it.name ++ '"' :: [rbrace]

/-- Comma-separated serializations of the items of the vector. -/
def encodeInner : List Item → List Char
  | [] => []
  | [it] => encodeItem it
  | it :: rest => encodeItem it ++ ',' :: encodeInner rest

/-- Modelled from the spec: `serde_json::to_string` on the whole `Vec<Item>`
("a single JSON array of id/name objects"), in serde_json's compact format. -/
def to_string (items : List Item) : String :=
  ⟨'[' :: encodeInner items ++ [']']⟩

/-- Value of a hexadecimal digit character, lowercase or uppercase. -/
def hexVal (c : Char) : Option Nat :=
  if 48 ≤ c.toNat ∧ c.toNat ≤ 57 then some (c.toNat - 48)
  else if 97 ≤ c.toNat ∧ c.toNat ≤ 102 then some (c.toNat - 87)
  else if 65 ≤ c.toNat ∧ c.toNat ≤ 70 then some (c.toNat - 55)
  else none

/-- Value of a decimal digit character. -/
def digitVal (c : Char) : Option Nat :=
  if 48 ≤ c.toNat ∧ c.toNat ≤ 57 then some (c.toNat - 48) else none

/-- Does the input start with a decimal digit? -/
def headIsDigit : List Char → Bool
  | [] => false
  | c :: _ => (digitVal c).isSome

/-- Accumulating decimal-number scanner: consumes the longest digit run. -/
def parseNatAux (acc : Nat) : List Char → Nat × List Char
  | [] => (acc, [])
  | c :: rest =>
    match digitVal c with
    | some d => parseNatAux (acc * 10 + d) rest
    | none => (acc, c :: rest)

/-- JSON unsigned-integer parser (as serde_json reads the `usize` field):
requires at least one leading digit. -/
def parseNat (l : List Char) : Option (Nat × List Char) :=
  if headIsDigit l then some (parseNatAux 0 l) else none

/-- Consume an expected literal sequence of characters. -/
def parseExact : List Char → List Char → Option (List Char)
  | [], l => some l
  | _ :: _, [] => none
  | e :: es, c :: cs => if c = e then parseExact es cs else none

/-- Modelled from the spec: serde_json's JSON string body parser (after the
opening quote), producing the decoded characters and the input after the
closing quote. Raw control characters are rejected; the backslash escapes for
quote, backslash, slash, backspace, formfeed, newline, carriage return, tab
and four-hex-digit unicode are decoded (surrogate pairs, which the encoder
never emits, are not combined). -/
def parseStringBody : List Char → Option (List Char × List Char)
  | [] => none
  | c :: rest =>
    if c = '"' then some ([], rest)
    else if c = '\\' then
      match rest with
      | [] => none
      | e :: rest2 =>
        if e = '"' then (parseStringBody rest2).map (fun p => ('"' :: p.1, p.2))
        else if e = '\\' then (parseStringBody rest2).map (fun p => ('\\' :: p.1, p.2))
        else if e = '/' then (parseStringBody rest2).map (fun p => ('/' :: p.1, p.2))
        else if e = 'b' then (parseStringBody rest2).map (fun p => (Char.ofNat 8 :: p.1, p.2))
        else if e = 'f' then (parseStringBody rest2).map (fun p => (Char.ofNat 12 :: p.1, p.2))
        else if e = 'n' then (parseStringBody rest2).map (fun p => ('\n' :: p.1, p.2))
        else if e = 'r' then (parseStringBody rest2).map (fun p => ('\r' :: p.1, p.2))
        else if e = 't' then (parseStringBody rest2).map (fun p => ('\t' :: p.1, p.2))
        else if e = 'u' then
          match rest2 with
          | a :: b :: c2 :: d :: rest3 =>
            match hexVal a, hexVal b, hexVal c2, hexVal d with
            | some ha, some hb, some hc, some hd =>
              let n := ((ha * 16 + hb) * 16 + hc) * 16 + hd
              if Nat.isValidChar n then
                (parseStringBody rest3).map (fun p => (Char.ofNat n :: p.1, p.2))
              else none
            | _, _, _, _ => none
          | _ => none
        else none
    else if c.toNat < 32 then none
    else (parseStringBody rest).map (fun p => (c :: p.1, p.2))

/-- serde_json parse of one id/name object in the compact canonical form; the
real parser's whitespace tolerance and field reordering are not modelled,
which only makes the model stricter on non-canonical inputs. -/
def parseItem (l : List Char) : Option (Item × List Char) := do
  let l1 ← parseExact [lbrace, '"', 'i', 'd', '"', ':'] l
  let (n, l2) ← parseNat l1
  let l3 ← parseExact [',', '"', 'n', 'a', 'm', 'e', '"', ':', '"'] l2
  let (cs, l4) ← parseStringBody l3
  let l5 ← parseExact [rbrace] l4
  pure (⟨n, ⟨cs⟩⟩, l5)

/-- Fueled parser for the comma-separated items of a nonempty JSON array,
consuming the closing bracket. The fuel only bounds the number of items; the
top-level parser passes the input length, which always suffices. -/
def parseItemsAux : Nat → List Char → Option (List Item × List Char)
  | 0, _ => none
  | fuel + 1, l => do
    let (it, l1) ← parseItem l
    match l1 with
    | ',' :: l2 =>
      let (rest, l3) ← parseItemsAux fuel l2
      pure (it :: rest, l3)
    | ']' :: l2 => pure ([it], l2)
    | _ => none

/-- Character-level body of the top-level parse: the input must be a bracketed
array, either exactly empty or a comma-separated list of items consuming the
whole input. -/
def from_str_chars : List Char → Option (List Item)
  | '[' :: rest =>
    if rest = [']'] then some []
    else
      match parseItemsAux rest.length rest with
      | some (items, []) => some items
      | _ => none
  | _ => none

/-- Modelled from the spec: `serde_json::from_str::<Vec<Item>>` restricted to
the canonical compact format the encoder produces ("a single JSON array of
id/name objects"); any other input is a parse failure, as in the crate
(which additionally tolerates surrounding whitespace). -/
def from_str (s : String) : Option (List Item) :=
  from_str_chars s.data

/-- `save_items` (main.rs lines 42-52): the content written to `items.json`
(whole-file truncate-and-rewrite of the serialized vector). -/
def save_items (items : List Item) : String := to_string items

/-- Outcome of reading `items.json`, as `load_items` can observe it: the file
may be missing, opening or reading it may fail with an I/O error, or its full
contents are obtained as a string. -/
inductive FsRead where
  | missing
  | openErr
  | readErr
  | content (s : String)
deriving DecidableEq

/-- `load_items` (main.rs lines 29-39): a missing file gives the empty
vector; an open or read failure panics through `expect` (modelled as
`Except.error` carrying the panic message); otherwise the contents are
parsed, any parse failure being silently replaced by the empty vector via
`unwrap_or_else`. -/
def load_items : FsRead → Except String (List Item)
  | .missing => .ok []
  | .openErr => .error "Unable to open file"
  | .readErr => .error "Unable to read file"
  | .content s => .ok ((from_str s).getD [])

/-! ### Handler lemmas -/

/-- If no element of `items` has the given id, the first-match update finds
nothing. -/
theorem updateFirst_eq_none (id : Nat) (newName : String) (items : List Item)
    (h : ∀ x ∈ items, x.id ≠ id) : updateFirst id newName items = none := by
  induction items with
  | nil => rfl
  | cons it rest ih =>
    simp only [updateFirst]
    rw [if_neg (h it (List.mem_cons_self it rest)),
      ih fun x hx => h x (List.mem_cons_of_mem it hx)]
    rfl

/-- The first-match update on a list that splits as `pre ++ it :: post` with
no match in `pre` and a match at `it` renames exactly `it`. -/
theorem updateFirst_split (id : Nat) (newName : String) (pre : List Item) (it : Item)
    (post : List Item) (hpre : ∀ x ∈ pre, x.id ≠ id) (hit : it.id = id) :
    updateFirst id newName (pre ++ it :: post)
      = some (pre ++ { it with name := newName } :: post) := by
  induction pre with
  | nil => simp [updateFirst, hit]
  | cons p ps ih =>
    have hps := ih fun x hx => hpre x (List.mem_cons_of_mem p hx)
    simp only [List.cons_append, updateFirst]
    rw [if_neg (hpre p (List.mem_cons_self p ps))]
    simp [hps]

/-- C1: update scans in order, renames only the first id match and reports
success (200); with no match it reports not-found (404); records after the
first match — in particular later duplicates — are untouched. -/
theorem update_item_first_match_only (id : Nat) (item : Item) (items : List Item) :
    ((∀ x ∈ items, x.id ≠ id) →
      update_item id item items = ⟨⟨404, .empty⟩, items, false⟩)
    ∧ (∀ pre it post, items = pre ++ it :: post →
        (∀ x ∈ pre, x.id ≠ id) → it.id = id →
        update_item id item items
          = ⟨⟨200, .empty⟩, pre ++ { it with name := item.name } :: post, true⟩) := by
  constructor
  · intro h
    simp [update_item, updateFirst_eq_none id item.name items h]
  · intro pre it post hsplit hpre hit
    subst hsplit
    simp [update_item, updateFirst_split id item.name pre it post hpre hit]

/-- Witness for C1 at a collection with duplicate ids: only the first record
with id 1 is renamed. -/
theorem update_item_first_match_only_witness :
    update_item 1 ⟨9, "x"⟩ [⟨1, "a"⟩, ⟨2, "b"⟩, ⟨1, "c"⟩]
      = ⟨⟨200, .empty⟩, [⟨1, "x"⟩, ⟨2, "b"⟩, ⟨1, "c"⟩], true⟩ := by
  have h := (update_item_first_match_only 1 ⟨9, "x"⟩ [⟨1, "a"⟩, ⟨2, "b"⟩, ⟨1, "c"⟩]).2
    [] ⟨1, "a"⟩ [⟨2, "b"⟩, ⟨1, "c"⟩] rfl (by decide) rfl
  exact h

/-- C2: delete reports 404 when no record matches; otherwise it removes every
record with the given id (not just the first), reports 200, and the surviving
records keep their relative order (the result is a sublist). -/
theorem delete_item_all_matches (id : Nat) (items : List Item) :
    ((∀ x ∈ items, x.id ≠ id) →
      delete_item id items = ⟨⟨404, .empty⟩, items, false⟩)
    ∧ ((∃ x ∈ items, x.id = id) →
      delete_item id items
        = ⟨⟨200, .empty⟩, items.filter (fun i => i.id != id), true⟩
      ∧ ∀ x ∈ (delete_item id items).items, x.id ≠ id)
    ∧ (delete_item id items).items.Sublist items := by
  refine ⟨?_, ?_, ?_⟩
  · intro h
    have hany : items.any (fun i => i.id == id) = false := by
      simp only [List.any_eq_false]
      intro x hx
      simp [h x hx]
    simp [delete_item, hany]
  · intro hex
    have hany : items.any (fun i => i.id == id) = true := by
      simp only [List.any_eq_true]
      obtain ⟨x, hx, hxid⟩ := hex
      exact ⟨x, hx, by simp [hxid]⟩
    refine ⟨by simp [delete_item, hany], ?_⟩
    intro x hx
    simp only [delete_item, hany, if_true] at hx
    simp only [List.mem_filter] at hx
    simpa using hx.2
  · by_cases hany : items.any (fun i => i.id == id) = true
    · simp [delete_item, hany]
    · simp only [Bool.not_eq_true] at hany
      simp [delete_item, hany]

/-- Witness for C2: deleting id 1 removes both matching records and keeps the
middle one. -/
theorem delete_item_all_matches_witness :
    delete_item 1 [⟨1, "a"⟩, ⟨2, "b"⟩, ⟨1, "c"⟩]
      = ⟨⟨200, .empty⟩, [⟨2, "b"⟩], true⟩ := by
  have h := ((delete_item_all_matches 1 [⟨1, "a"⟩, ⟨2, "b"⟩, ⟨1, "c"⟩]).2.1
    ⟨⟨1, "a"⟩, by decide, rfl⟩).1
  exact h

/-- C3: create appends unconditionally — no duplicate-id check, the
collection grows by exactly one, all previous records are unchanged — and
creating two records with id 5 followed by list returns both. -/
theorem create_item_appends (item : Item) (items : List Item) :
    create_item item items = ⟨⟨201, .empty⟩, items ++ [item], true⟩
    ∧ (create_item item items).items.length = items.length + 1
    ∧ (create_item item items).items.take items.length = items
    ∧ (get_items (create_item ⟨5, "b"⟩ (create_item ⟨5, "a"⟩ []).items).items).resp.body
        = RespBody.itemsJson [⟨5, "a"⟩, ⟨5, "b"⟩] := by
  refine ⟨rfl, by simp [create_item], ?_, rfl⟩
  simp [create_item]

/-- C7 evidence at the failing input: `create_item` replies 201 with an empty
body (`finish()`) — its body is `RespBody.empty`, not the created record the
handler's own OpenAPI annotation (`body = Item`) promises. -/
theorem create_item_echoes_nothing :
    (create_item ⟨1, "a"⟩ []).resp = ⟨201, RespBody.empty⟩
    ∧ (create_item ⟨1, "a"⟩ []).resp.body = RespBody.empty :=
  ⟨rfl, rfl⟩

/-- C6: on an absent id both update and delete report 404, leave the
collection unchanged, and issue no save. -/
theorem update_delete_absent_id_noop (id : Nat) (item : Item) (items : List Item)
    (h : ∀ x ∈ items, x.id ≠ id) :
    update_item id item items = ⟨⟨404, .empty⟩, items, false⟩
    ∧ delete_item id items = ⟨⟨404, .empty⟩, items, false⟩ := by
  constructor
  · simp [update_item, updateFirst_eq_none id item.name items h]
  · have hany : items.any (fun i => i.id == id) = false := by
      simp only [List.any_eq_false]
      intro x hx
      simp [h x hx]
    simp [delete_item, hany]

/-- Witness for C6 at id 42, absent from the collection. -/
theorem update_delete_absent_id_noop_witness :
    update_item 42 ⟨42, "z"⟩ [⟨1, "a"⟩] = ⟨⟨404, .empty⟩, [⟨1, "a"⟩], false⟩
    ∧ delete_item 42 [⟨1, "a"⟩] = ⟨⟨404, .empty⟩, [⟨1, "a"⟩], false⟩ :=
  update_delete_absent_id_noop 42 ⟨42, "z"⟩ [⟨1, "a"⟩] (by decide)

/-- C8: after a successful delete (status 200), repeating the delete for the
same id reports 404 and changes nothing — the first delete removed every
matching record. -/
theorem delete_item_second_not_found (id : Nat) (items : List Item)
    (h : (delete_item id items).resp.status = 200) :
    delete_item id (delete_item id items).items
      = ⟨⟨404, .empty⟩, (delete_item id items).items, false⟩ := by
  by_cases hany : items.any (fun i => i.id == id) = true
  · have hitems : (delete_item id items).items = items.filter (fun i => i.id != id) := by
      simp [delete_item, hany]
    have hnone : (items.filter (fun i => i.id != id)).any (fun i => i.id == id) = false := by
      simp only [List.any_eq_false]
      intro x hx
      simp only [List.mem_filter] at hx
      have h2 := hx.2
      simp only [bne_iff_ne] at h2
      simpa using h2
    rw [hitems]
    simp [delete_item, hnone]
  · simp only [Bool.not_eq_true] at hany
    simp [delete_item, hany] at h

/-- Witness for C8: the second delete of id 1 yields 404. -/
theorem delete_item_second_not_found_witness :
    delete_item 1 (delete_item 1 [⟨1, "a"⟩]).items
      = ⟨⟨404, .empty⟩, (delete_item 1 [⟨1, "a"⟩]).items, false⟩ :=
  delete_item_second_not_found 1 [⟨1, "a"⟩] (by decide)

/-! ### Refinement against the reference model -/

/-- The collection after `update_item` is the first-match rename when a match
exists and the unchanged collection otherwise. -/
theorem update_item_items_eq (id : Nat) (item : Item) (items : List Item) :
    (update_item id item items).items = (updateFirst id item.name items).getD items := by
  cases h : updateFirst id item.name items <;> simp [update_item, h]

/-- The first-match rename agrees with the spec's reference update. -/
theorem updateFirst_getD_eq_specUpdate (id : Nat) (newName : String) (items : List Item) :
    (updateFirst id newName items).getD items = specUpdate id newName items := by
  induction items with
  | nil => rfl
  | cons x rest ih =>
    simp only [updateFirst, specUpdate]
    by_cases hx : x.id = id
    · simp [hx]
    · rw [if_neg hx, if_neg hx]
      cases h : updateFirst id newName rest with
      | none =>
        rw [h] at ih
        simp only [Option.getD_none] at ih
        simp [h, ← ih]
      | some l =>
        rw [h] at ih
        simp only [Option.getD_some] at ih
        simp [h, ih]

/-- The collection after `delete_item` is always the all-match filter (when
nothing matches, the filter is the identity). -/
theorem delete_item_items_eq (id : Nat) (items : List Item) :
    (delete_item id items).items = items.filter (fun i => i.id != id) := by
  by_cases hany : items.any (fun i => i.id == id) = true
  · simp [delete_item, hany]
  · simp only [Bool.not_eq_true] at hany
    have hself : items.filter (fun i => i.id != id) = items := by
      rw [List.filter_eq_self]
      intro a ha
      have h2 := List.any_eq_false.mp hany a ha
      simpa using h2
    simp [delete_item, hany, hself]

/-- The all-match filter agrees with the spec's reference delete. -/
theorem specDelete_eq_filter (id : Nat) (items : List Item) :
    specDelete id items = items.filter (fun i => i.id != id) := by
  induction items with
  | nil => rfl
  | cons x rest ih =>
    simp only [specDelete, List.filter_cons]
    by_cases hx : x.id = id
    · simp [hx, ih]
    · simp [hx, ih]

/-- Each handler step computes exactly the reference-model step. -/
theorem applyHandler_eq_specApply (items : List Item) (op : Op) :
    applyHandler items op = specApply items op := by
  cases op with
  | create it => rfl
  | update idv it =>
    simp [applyHandler, specApply, update_item_items_eq, updateFirst_getD_eq_specUpdate]
  | delete idv =>
    simp [applyHandler, specApply, delete_item_items_eq, specDelete_eq_filter]

/-- C9: replaying any operation sequence from the empty collection through
the handlers and then listing agrees with the reference in-memory model with
first-match update and all-match delete semantics. -/
theorem replay_matches_reference_model (ops : List Op) :
    (get_items (ops.foldl applyHandler [])).resp.body
      = RespBody.itemsJson (ops.foldl specApply []) := by
  have h : ∀ items : List Item, ops.foldl applyHandler items = ops.foldl specApply items := by
    induction ops with
    | nil => intro items; rfl
    | cons op rest ih =>
      intro items
      simp only [List.foldl_cons]
      rw [applyHandler_eq_specApply]
      exact ih _
  simp [get_items, h []]

/-! ### Round trip of the persistence encoding -/

/-- Consuming an expected literal prefix succeeds and leaves the suffix. -/
theorem parseExact_append (p rest : List Char) : parseExact p (p ++ rest) = some rest := by
  induction p with
  | nil => rfl
  | cons c cs ih => simp [parseExact, ih]

/-- Characters emitted by `hexDigit` evaluate back through `hexVal`. -/
theorem hexVal_hexDigit (x : Nat) (h : x < 16) : hexVal (hexDigit x) = some x := by
  have hall : ∀ y < 16, hexVal (hexDigit y) = some y := by decide
  exact hall x h

/-- Digit characters emitted by the decimal printer evaluate back. -/
theorem digitVal_digit (x : Nat) (h : x < 10) : digitVal (Char.ofNat (48 + x)) = some x := by
  have hall : ∀ y < 10, digitVal (Char.ofNat (48 + y)) = some y := by decide
  exact hall x h

/-- Unfolding of the decimal printer below ten. -/
theorem natToChars_eq_small (n : Nat) (h : n < 10) :
    natToChars n = [Char.ofNat (48 + n)] := by
  rw [natToChars]
  simp [h]

/-- Unfolding of the decimal printer at ten and above. -/
theorem natToChars_eq_large (n : Nat) (h : ¬ n < 10) :
    natToChars n = natToChars (n / 10) ++ [Char.ofNat (48 + n % 10)] := by
  rw [natToChars]
  simp [h]

/-- The scanner stops cleanly at a non-digit. -/
theorem parseNatAux_no_digit (acc : Nat) (l : List Char) (h : headIsDigit l = false) :
    parseNatAux acc l = (acc, l) := by
  cases l with
  | nil => rfl
  | cons c rest =>
    cases hd : digitVal c with
    | none => simp [parseNatAux, hd]
    | some d =>
      exfalso
      simp [headIsDigit, hd] at h

/-- Scanning the printed decimal of `n` shifts it into the accumulator. -/
theorem parseNatAux_digits (n : Nat) : ∀ acc rest,
    parseNatAux acc (natToChars n ++ rest)
      = parseNatAux (acc * 10 ^ (natToChars n).length + n) rest := by
  induction n using Nat.strong_induction_on with
  | _ n ih =>
    intro acc rest
    by_cases h : n < 10
    · rw [natToChars_eq_small n h]
      simp only [List.cons_append, List.nil_append, parseNatAux, digitVal_digit n h,
        List.length_cons, List.length_nil]
      rw [pow_one]
      rfl
    · rw [natToChars_eq_large n h, List.append_assoc]
      rw [ih (n / 10) (by omega) acc ([Char.ofNat (48 + n % 10)] ++ rest)]
      simp only [List.cons_append, List.nil_append, parseNatAux,
        digitVal_digit (n % 10) (by omega), List.length_append, List.length_cons,
        List.length_nil]
      congr 1
      rw [pow_succ, ← mul_assoc]
      calc (acc * 10 ^ (natToChars (n / 10)).length + n / 10) * 10 + n % 10
          = acc * 10 ^ (natToChars (n / 10)).length * 10 + (10 * (n / 10) + n % 10) := by
            ring
        _ = acc * 10 ^ (natToChars (n / 10)).length * 10 + n := by
            rw [Nat.div_add_mod]

/-- The printed decimal of `n` starts with a digit. -/
theorem headIsDigit_natToChars (n : Nat) : ∀ rest,
    headIsDigit (natToChars n ++ rest) = true := by
  induction n using Nat.strong_induction_on with
  | _ n ih =>
    intro rest
    by_cases h : n < 10
    · rw [natToChars_eq_small n h]
      simp [headIsDigit, digitVal_digit n h]
    · rw [natToChars_eq_large n h, List.append_assoc]
      exact ih (n / 10) (by omega) _

/-- Parsing the printed decimal of `n` followed by a non-digit yields `n`. -/
theorem parseNat_encode (n : Nat) (rest : List Char) (h : headIsDigit rest = false) :
    parseNat (natToChars n ++ rest) = some (n, rest) := by
  simp only [parseNat, headIsDigit_natToChars n rest, if_true]
  rw [parseNatAux_digits n 0 rest, parseNatAux_no_digit _ _ h]
  simp


/-- Unfolding of the string parser at a closing quote. -/
theorem parseStringBody_quote (rest : List Char) :
    parseStringBody ('"' :: rest) = some ([], rest) := by
  rw [parseStringBody.eq_def]
  simp

/-- Unfolding of the string parser at an escaped quote. -/
theorem parseStringBody_esc_quote (rest : List Char) :
    parseStringBody ('\\' :: '"' :: rest)
      = (parseStringBody rest).map (fun p => ('"' :: p.1, p.2)) := by
  rw [parseStringBody.eq_def]
  simp +decide

/-- Unfolding of the string parser at an escaped backslash. -/
theorem parseStringBody_esc_backslash (rest : List Char) :
    parseStringBody ('\\' :: '\\' :: rest)
      = (parseStringBody rest).map (fun p => ('\\' :: p.1, p.2)) := by
  rw [parseStringBody.eq_def]
  simp +decide

/-- Unfolding of the string parser at an escaped backspace. -/
theorem parseStringBody_esc_b (rest : List Char) :
    parseStringBody ('\\' :: 'b' :: rest)
      = (parseStringBody rest).map (fun p => (Char.ofNat 8 :: p.1, p.2)) := by
  rw [parseStringBody.eq_def]
  simp +decide

/-- Unfolding of the string parser at an escaped formfeed. -/
theorem parseStringBody_esc_f (rest : List Char) :
    parseStringBody ('\\' :: 'f' :: rest)
      = (parseStringBody rest).map (fun p => (Char.ofNat 12 :: p.1, p.2)) := by
  rw [parseStringBody.eq_def]
  simp +decide

/-- Unfolding of the string parser at an escaped newline. -/
theorem parseStringBody_esc_n (rest : List Char) :
    parseStringBody ('\\' :: 'n' :: rest)
      = (parseStringBody rest).map (fun p => ('\n' :: p.1, p.2)) := by
  rw [parseStringBody.eq_def]
  simp +decide

/-- Unfolding of the string parser at an escaped carriage return. -/
theorem parseStringBody_esc_r (rest : List Char) :
    parseStringBody ('\\' :: 'r' :: rest)
      = (parseStringBody rest).map (fun p => ('\r' :: p.1, p.2)) := by
  rw [parseStringBody.eq_def]
  simp +decide

/-- Unfolding of the string parser at an escaped tab. -/
theorem parseStringBody_esc_t (rest : List Char) :
    parseStringBody ('\\' :: 't' :: rest)
      = (parseStringBody rest).map (fun p => ('\t' :: p.1, p.2)) := by
  rw [parseStringBody.eq_def]
  simp +decide

/-- Unfolding of the string parser at a unicode escape whose four hex digits
decode to a valid code point. -/
theorem parseStringBody_esc_u (a b c2 d : Char) (rest : List Char)
    (ha : Nat) (hb : Nat) (hc : Nat) (hd : Nat)
    (hva : hexVal a = some ha) (hvb : hexVal b = some hb)
    (hvc : hexVal c2 = some hc) (hvd : hexVal d = some hd)
    (hvalid : Nat.isValidChar (((ha * 16 + hb) * 16 + hc) * 16 + hd)) :
    parseStringBody ('\\' :: 'u' :: a :: b :: c2 :: d :: rest)
      = (parseStringBody rest).map
          (fun p => (Char.ofNat (((ha * 16 + hb) * 16 + hc) * 16 + hd) :: p.1, p.2)) := by
  rw [parseStringBody.eq_def]
  simp +decide [hva, hvb, hvc, hvd, hvalid]

/-- Unfolding of the string parser at an ordinary character. -/
theorem parseStringBody_other (c : Char) (rest : List Char)
    (h1 : ¬ c = '"') (h2 : ¬ c = '\\') (h3 : ¬ c.toNat < 32) :
    parseStringBody (c :: rest)
      = (parseStringBody rest).map (fun p => (c :: p.1, p.2)) := by
  rw [parseStringBody.eq_def]
  simp [h1, h2, h3]

/-- Decoding inverts serde_json escaping, one character at a time: the parser
applied to the escaped characters followed by a closing quote recovers the
original characters and the continuation. -/
theorem parseStringBody_escape (cs : List Char) (rest : List Char) :
    parseStringBody ((cs.map escapeChar).flatten ++ '"' :: rest) = some (cs, rest) := by
  induction cs with
  | nil => simp [parseStringBody_quote]
  | cons c cs ih =>
    simp only [List.map_cons, List.flatten_cons, List.append_assoc]
    by_cases h1 : c = '"'
    · subst h1
      simp +decide [escapeChar, parseStringBody_esc_quote, ih]
    by_cases h2 : c = '\\'
    · subst h2
      simp +decide [escapeChar, parseStringBody_esc_backslash, ih]
    by_cases h3 : c.toNat = 8
    · have hc : Char.ofNat 8 = c := by
        rw [← h3]
        exact Char.ofNat_toNat c
      simp +decide [escapeChar, h1, h2, h3, parseStringBody_esc_b, ih]
      exact hc
    by_cases h4 : c = '\t'
    · subst h4
      simp +decide [escapeChar, parseStringBody_esc_t, ih]
    by_cases h5 : c = '\n'
    · subst h5
      simp +decide [escapeChar, parseStringBody_esc_n, ih]
    by_cases h6 : c.toNat = 12
    · have hc : Char.ofNat 12 = c := by
        rw [← h6]
        exact Char.ofNat_toNat c
      simp +decide [escapeChar, h1, h2, h3, h4, h5, h6, parseStringBody_esc_f, ih]
      exact hc
    by_cases h7 : c = '\r'
    · subst h7
      simp +decide [escapeChar, parseStringBody_esc_r, ih]
    by_cases h8 : c.toNat < 32
    · have hhi : c.toNat / 16 < 16 := by omega
      have hlo : c.toNat % 16 < 16 := by omega
      have hn : ((0 * 16 + 0) * 16 + c.toNat / 16) * 16 + c.toNat % 16 = c.toNat := by
        omega
      have hvalid : Nat.isValidChar (((0 * 16 + 0) * 16 + c.toNat / 16) * 16 + c.toNat % 16) := by
        rw [hn]
        exact Or.inl (by omega)
      have hu := parseStringBody_esc_u '0' '0' (hexDigit (c.toNat / 16)) (hexDigit (c.toNat % 16))
        ((cs.map escapeChar).flatten ++ '"' :: rest) 0 0 (c.toNat / 16) (c.toNat % 16)
        (by decide) (by decide) (hexVal_hexDigit _ hhi) (hexVal_hexDigit _ hlo) hvalid
      have hc : Char.ofNat (((0 * 16 + 0) * 16 + c.toNat / 16) * 16 + c.toNat % 16) = c := by
        rw [hn]
        exact Char.ofNat_toNat c
      rw [escapeChar, if_neg h1, if_neg h2, if_neg h3, if_neg h4, if_neg h5, if_neg h6,
        if_neg h7, if_pos h8]
      simp only [List.cons_append, List.nil_append]
      rw [hu, ih, hc]
      rfl
    · simp +decide [escapeChar, h1, h2, h3, h4, h5, h6, h7, h8, parseStringBody_other, ih]

/-- Consuming a single expected character. -/
theorem parseExact_single (c : Char) (rest : List Char) :
    parseExact [c] (c :: rest) = some rest := by
  simp [parseExact]

/-- Parsing inverts the item encoder, for any continuation. -/
theorem parseItem_encode (it : Item) (rest : List Char) :
    parseItem (encodeItem it ++ rest) = some (it, rest) := by
  have hshape : encodeItem it ++ rest
      = [lbrace, '"', 'i', 'd', '"', ':'] ++ (natToChars it.id
        ++ ([',', '"', 'n', 'a', 'm', 'e', '"', ':', '"'] ++ (escapeString it.name
        ++ '"' :: rbrace :: rest))) := by
    simp [encodeItem]
  have hdigit : headIsDigit ([',', '"', 'n', 'a', 'm', 'e', '"', ':', '"']
      ++ (escapeString it.name ++ '"' :: rbrace :: rest)) = false := rfl
  have hname : parseStringBody (escapeString it.name ++ '"' :: rbrace :: rest)
      = some (it.name.data, rbrace :: rest) :=
    parseStringBody_escape it.name.data (rbrace :: rest)
  have hnum := parseNat_encode it.id ([',', '"', 'n', 'a', 'm', 'e', '"', ':', '"']
      ++ (escapeString it.name ++ '"' :: rbrace :: rest)) hdigit
  rw [hshape]
  simp only [parseItem, Option.bind_eq_bind]
  rw [parseExact_append]
  simp only [Option.some_bind]
  rw [hnum]
  simp only [Option.some_bind]
  rw [parseExact_append]
  simp only [Option.some_bind]
  rw [hname]
  simp only [Option.some_bind]
  rw [parseExact_single]
  simp only [Option.some_bind]
  rfl

/-- An encoded item is nonempty. -/
theorem encodeItem_length_pos (it : Item) : 0 < (encodeItem it).length := by
  simp [encodeItem]

/-- Fuel bound: an encoded vector is at least as long (plus the closing
bracket) as the vector itself. -/
theorem length_le_encodeInner (its : List Item) :
    its.length ≤ (encodeInner its).length + 1 := by
  induction its with
  | nil => simp
  | cons it its ih =>
    cases its with
    | nil =>
      simp only [encodeInner, List.length_cons, List.length_nil]
      omega
    | cons it2 its2 =>
      have hpos := encodeItem_length_pos it
      simp only [encodeInner, List.length_append, List.length_cons] at ih ⊢
      omega

/-- The fueled array-tail parser inverts the comma-separated encoding when
the fuel is at least the number of items. -/
theorem parseItemsAux_encode (its : List Item) : ∀ fuel, its ≠ [] → its.length ≤ fuel →
    ∀ rest, parseItemsAux fuel (encodeInner its ++ ']' :: rest) = some (its, rest) := by
  induction its with
  | nil =>
    intro fuel h _ _
    exact absurd rfl h
  | cons it its ih =>
    intro fuel _ hf rest
    cases fuel with
    | zero => simp at hf
    | succ f =>
      cases its with
      | nil =>
        simp +decide [encodeInner, parseItemsAux, parseItem_encode]
      | cons it2 its2 =>
        have hih := ih f (List.cons_ne_nil it2 its2)
          (by simp only [List.length_cons] at hf ⊢; omega) rest
        simp +decide [encodeInner, parseItemsAux, parseItem_encode, List.append_assoc, hih]

/-- The encoded form of a nonempty vector starts with an opening brace. -/
theorem encodeInner_cons_head (it : Item) (its : List Item) :
    ∃ t, encodeInner (it :: its) = lbrace :: t := by
  cases its with
  | nil => exact ⟨_, rfl⟩
  | cons a b => exact ⟨_, rfl⟩

/-- Parsing inverts serialization for every collection. -/
theorem from_str_to_string (items : List Item) :
    from_str (to_string items) = some items := by
  cases items with
  | nil => rfl
  | cons it its =>
    obtain ⟨t, ht⟩ := encodeInner_cons_head it its
    have hstep : from_str (to_string (it :: its))
        = from_str_chars ('[' :: (encodeInner (it :: its) ++ [']'])) := rfl
    have hne : ¬ (encodeInner (it :: its) ++ [']'] = [']']) := by
      rw [ht]
      simp +decide
    have hfuel : (it :: its).length ≤ (encodeInner (it :: its) ++ [']']).length := by
      have hlen := length_le_encodeInner (it :: its)
      simp only [List.length_append, List.length_cons, List.length_nil] at hlen ⊢
      omega
    have hparse := parseItemsAux_encode (it :: its)
      ((encodeInner (it :: its) ++ [']']).length) (List.cons_ne_nil it its) hfuel []
    rw [hstep, from_str_chars, if_neg hne]
    rw [show encodeInner (it :: its) ++ [']'] = encodeInner (it :: its) ++ ']' :: [] from rfl]
    rw [hparse]

/-- C5: saving any collection and then loading the produced file contents
yields a collection equal to the one saved, same id/name pairs in the same
order. -/
theorem save_then_load_round_trip (items : List Item) :
    load_items (.content (save_items items)) = .ok items := by
  simp [load_items, save_items, from_str_to_string]

/-- C4: loading a missing file, and loading any file contents that fail to
parse, both yield the empty collection, never an error. -/
theorem load_items_missing_or_corrupt :
    load_items .missing = .ok []
    ∧ ∀ s, from_str s = none → load_items (.content s) = .ok [] :=
  ⟨rfl, fun _ h => by simp [load_items, h]⟩

/-- Witness for C4 on concrete corrupt file contents. -/
theorem load_items_missing_or_corrupt_witness :
    from_str "not json" = none ∧ load_items (.content "not json") = .ok [] :=
  ⟨by decide, load_items_missing_or_corrupt.2 "not json" (by decide)⟩

/-- C10: an I/O failure while opening or reading an existing file panics
through `expect` (it does not return an empty collection); only the
missing-file case and the parse-failure case take the silent empty-collection
branch, and reading obtained contents never errors. -/
theorem load_items_panics_on_io_error :
    load_items .openErr = .error "Unable to open file"
    ∧ load_items .readErr = .error "Unable to read file"
    ∧ load_items .missing = .ok []
    ∧ ∀ s, load_items (.content s) = .ok ((from_str s).getD []) :=
  ⟨rfl, rfl, rfl, fun _ => rfl⟩
